import Mathlib

/-!
Verification of the packet codec and framing layer of the `mchat` client
(`src/lib.rs`).  The Rust code is shallowly embedded: `Vec<u8>` becomes
`List Nat` (each element a byte pattern `< 256` wherever the code writes one),
`i32`/`u32` values are carried as their bit patterns (`Nat < 2^32`, with
explicit `% 2^32` at the one place the Rust code can overflow a shift),
and fallible operations return `Except`.  Loops bounded by an iteration
counter in the source (`write_varint`, `read_varint`) are written with a
structurally decreasing fuel argument whose start value makes the Lean
function take exactly the same branches as the Rust loop.
-/

/-- Constant `VARINT_SEGMENT_BITS: i32 = 0x7F` from `src/lib.rs`. -/
def VARINT_SEGMENT_BITS : Nat := 0x7F

/-- Constant `VARINT_CONTINUE_BIT: i32 = 0x80` from `src/lib.rs`. -/
def VARINT_CONTINUE_BIT : Nat := 0x80

/-- Bit pattern of `!VARINT_SEGMENT_BITS` as a 32-bit word (`!0x7F = 0xFFFFFF80`). -/
def NOT_SEGMENT_BITS : Nat := 0xFFFFFF80

/-- Modulus for 32-bit wrap-around (`2^32`). -/
def U32_MOD : Nat := 4294967296

/-- Modulus used when a 64-bit `usize` computation matters (`2^64`). -/
def U64_MOD : Nat := 18446744073709551616

/-- Cast of an `i32` bit pattern to a 64-bit `usize` (`v as usize` in Rust:
sign-extension of the 32-bit pattern reinterpreted as unsigned). -/
def usizeOfI32 (v : Nat) : Nat :=
  if v < 2147483648 then v else U64_MOD - U32_MOD + v

/-- The `Packet` struct of `src/lib.rs`: a growable byte buffer, a read
cursor, and the optional protocol-id tag. -/
structure Packet where
  buffer : List Nat
  cursor : Nat
  protocol_id : Option Nat
deriving Repr, DecidableEq

/-- `Packet::from_bytes` (`src/lib.rs:17`). -/
def Packet.from_bytes (bytes : List Nat) : Packet :=
  { buffer := bytes, cursor := 0, protocol_id := none }

/-- `Packet::with_size` (`src/lib.rs:25`). -/
def Packet.with_size (size : Nat) : Packet :=
  { buffer := List.replicate size 0, cursor := 0, protocol_id := none }

/-- `Packet::new` (`src/lib.rs:33`). -/
def Packet.new : Packet :=
  { buffer := [], cursor := 0, protocol_id := none }

/-- Loop body of `Packet::write_varint` (`src/lib.rs:56-74`).  The Rust loop
counts `iterations` upward from 1 and bails out with an error when
`iterations > 5`; here `fuel = 6 - iterations` decreases structurally, so
`fuel = 0` is exactly the `iterations > 5` error exit.  `value` is the i32
bit pattern; `value as u8` is `% 256`, and `(value as u32) >> 7` is `>>> 7`
on the pattern. -/
def write_varint_go (p : Packet) (value : Nat) : Nat → Except String Packet
  | 0 => .error "Varint exceeds maximum allowed size"
  | fuel + 1 =>
    if value &&& NOT_SEGMENT_BITS = 0 then
      .ok { p with buffer := p.buffer ++ [value % 256] }
    else
      write_varint_go
        { p with buffer := p.buffer ++ [((value &&& VARINT_SEGMENT_BITS) ||| VARINT_CONTINUE_BIT) % 256] }
        (value >>> 7) fuel

/-- `Packet::write_varint` (`src/lib.rs:56-74`), entered with `iterations = 1`,
i.e. fuel `6 - 1 = 5`. -/
def Packet.write_varint (p : Packet) (value : Nat) : Except String Packet :=
  write_varint_go p value 5

/-- Loop body of `Packet::read_varint` (`src/lib.rs:76-101`).  The Rust loop
increments `bit_position` by 7 per continuation byte and errors once it
reaches 32, so the loop body runs at most 5 times; `fuel = 5 - bit_position/7`
decreases structurally and the `fuel = 0` branch is unreachable from the
entry point (the `32 <= bit_position + 7` test fires first) - it is given the
same "Varint too large" error value.  The shift `(byte & 0x7F) << bit_position`
is an i32 shift, hence the explicit truncation `% U32_MOD`. -/
def read_varint_go (p : Packet) (value bit_position : Nat) : Nat → Except String (Nat × Packet)
  | 0 => .error "Varint too large"
  | fuel + 1 =>
    if p.cursor ≥ p.buffer.length then
      .error "Buffer is too short to read a valid varint"
    else
      let current_byte := p.buffer.getD p.cursor 0
      let q : Packet := { p with cursor := p.cursor + 1 }
      let value' := value ||| ((current_byte &&& VARINT_SEGMENT_BITS) <<< bit_position) % U32_MOD
      if current_byte &&& VARINT_CONTINUE_BIT = 0 then
        .ok (value', q)
      else if 32 ≤ bit_position + 7 then
        .error "Varint too large"
      else
        read_varint_go q value' (bit_position + 7) fuel

/-- `Packet::read_varint` (`src/lib.rs:76-101`), entered with `value = 0`,
`bit_position = 0` (fuel 5). -/
def Packet.read_varint (p : Packet) : Except String (Nat × Packet) :=
  read_varint_go p 0 0 5

/-- `Packet::write_string` (`src/lib.rs:41-46`): varint byte length
(`value.len() as i32`, i.e. the length truncated to a 32-bit pattern)
followed by the raw bytes. -/
def Packet.write_string (p : Packet) (value : List Nat) : Except String Packet :=
  match p.write_varint (value.length % U32_MOD) with
  | .error e => .error e
  | .ok q => .ok { q with buffer := q.buffer ++ value }

/-- UTF-8 validity of a byte sequence, as checked by Rust's
`String::from_utf8` (the standard table: C2-DF + 1 continuation,
E0/E1-EC/ED/EE-EF + 2, F0/F1-F3/F4 + 4, with the usual tightened ranges for
E0, ED, F0 and F4). -/
def validUtf8 : List Nat → Bool
  | [] => true
  | b :: rest =>
    if b ≤ 0x7F then validUtf8 rest
    else if 0xC2 ≤ b ∧ b ≤ 0xDF then
      match rest with
      | c :: r => if 0x80 ≤ c ∧ c ≤ 0xBF then validUtf8 r else false
      | [] => false
    else if b = 0xE0 then
      match rest with
      | c :: d :: r =>
        if (0xA0 ≤ c ∧ c ≤ 0xBF) ∧ (0x80 ≤ d ∧ d ≤ 0xBF) then validUtf8 r else false
      | _ => false
    else if (0xE1 ≤ b ∧ b ≤ 0xEC) ∨ (0xEE ≤ b ∧ b ≤ 0xEF) then
      match rest with
      | c :: d :: r =>
        if (0x80 ≤ c ∧ c ≤ 0xBF) ∧ (0x80 ≤ d ∧ d ≤ 0xBF) then validUtf8 r else false
      | _ => false
    else if b = 0xED then
      match rest with
      | c :: d :: r =>
        if (0x80 ≤ c ∧ c ≤ 0x9F) ∧ (0x80 ≤ d ∧ d ≤ 0xBF) then validUtf8 r else false
      | _ => false
    else if b = 0xF0 then
      match rest with
      | c :: d :: e :: r =>
        if (0x90 ≤ c ∧ c ≤ 0xBF) ∧ (0x80 ≤ d ∧ d ≤ 0xBF) ∧ (0x80 ≤ e ∧ e ≤ 0xBF) then
          validUtf8 r
        else false
      | _ => false
    else if 0xF1 ≤ b ∧ b ≤ 0xF3 then
      match rest with
      | c :: d :: e :: r =>
        if (0x80 ≤ c ∧ c ≤ 0xBF) ∧ (0x80 ≤ d ∧ d ≤ 0xBF) ∧ (0x80 ≤ e ∧ e ≤ 0xBF) then
          validUtf8 r
        else false
      | _ => false
    else if b = 0xF4 then
      match rest with
      | c :: d :: e :: r =>
        if (0x80 ≤ c ∧ c ≤ 0x8F) ∧ (0x80 ≤ d ∧ d ≤ 0xBF) ∧ (0x80 ≤ e ∧ e ≤ 0xBF) then
          validUtf8 r
        else false
      | _ => false
    else false

/-- Outcomes of `Packet::read_string`.  `panic` records the case where the
Rust code aborts: `self.buffer[self.cursor..self.cursor + length]` is an
unchecked slice-index and panics when the range reaches past the end of the
buffer, it does not return `Err`. -/
inductive StrError where
  | varintErr (msg : String)
  | panic
  | utf8Err
deriving Repr, DecidableEq

/-- `Packet::read_string` (`src/lib.rs:48-54`): reads a varint length, takes
that many bytes at the cursor (out-of-range = Rust panic, modelled as the
distinct outcome `StrError.panic`), checks UTF-8, then advances the cursor. -/
def Packet.read_string (p : Packet) : Except StrError (List Nat × Packet) :=
  match p.read_varint with
  | .error e => .error (.varintErr e)
  | .ok (lenPat, q) =>
    let length := usizeOfI32 lenPat
    if q.buffer.length < q.cursor + length then .error .panic
    else
      let bytes := (q.buffer.drop q.cursor).take length
      if validUtf8 bytes then .ok (bytes, { q with cursor := q.cursor + length })
      else .error .utf8Err

/-- `Packet::read_protocol_id` (`src/lib.rs:103-113`): reads the byte at the
cursor into `protocol_id` (overwriting whatever was there) and advances the
cursor. -/
def Packet.read_protocol_id (p : Packet) : Except String (Nat × Packet) :=
  if p.cursor ≥ p.buffer.length then
    .error "Buffer is too short to read a valid varint"
  else
    let q : Packet :=
      { p with protocol_id := some (p.buffer.getD p.cursor 0), cursor := p.cursor + 1 }
    match q.protocol_id with
    | some id => .ok (id, q)
    | none => .error "Protocol ID is somehow missing"

/-- `Packet::get_protocol_id` (`src/lib.rs:115-117`). -/
def Packet.get_protocol_id (p : Packet) : Option Nat :=
  p.protocol_id

/-- `Packet::write_slice` (`src/lib.rs:119-121`). -/
def Packet.write_slice (p : Packet) (slice : List Nat) : Packet :=
  { p with buffer := p.buffer ++ slice }

/-- `Packet::read_slice` (`src/lib.rs:123-130`).  The bound check is the
source's literal `self.cursor + amount > self.buffer.len() - 1`; the `- 1`
is `usize` subtraction, rendered here with `Nat` truncated subtraction
(identical for every non-empty buffer, which is the only case the claims
touch). -/
def Packet.read_slice (p : Packet) (amount : Nat) : Except String (List Nat × Packet) :=
  if p.cursor + amount > p.buffer.length - 1 then
    .error "Could not read slice past buffer."
  else
    .ok ((p.buffer.drop p.cursor).take amount, { p with cursor := p.cursor + amount })

/-- The `Client` struct of `src/lib.rs:133-139`.  The two buffered halves of
the TCP stream are abstracted to opaque handles (`Nat`); the byte traffic
itself is passed to the reading operations as an explicit `List Nat` stream. -/
structure Client where
  handshake_performed : Bool
  reader : Nat
  writer : Nat
  hostname : List Nat
  port : Nat
deriving Repr, DecidableEq

/-- `Client::invalidate_handshake` (`src/lib.rs:160-171`).  The result of
`TcpStream::connect` is supplied by the environment as `connect` (a fresh
handle or a connection error).  When the flag is set the client redials,
installs the new handle in both halves, and then sets the flag again (the
source assigns `true`, it does not clear it). -/
def Client.invalidate_handshake (c : Client) (connect : Except String Nat) :
    Except String Client :=
  if c.handshake_performed then
    match connect with
    | .error e => .error e
    | .ok stream =>
      .ok { c with reader := stream, writer := stream, handshake_performed := true }
  else
    .ok c

/-- Big-endian bytes of a `u16` port (`self.port.to_be_bytes()`). -/
def port_be_bytes (port : Nat) : List Nat :=
  [port / 256 % 256, port % 256]

/-- The handshake packet built by `Client::status` (`src/lib.rs:203-208`):
protocol id `0x00`, protocol version varint `759`, length-prefixed hostname,
two big-endian port bytes, and the next-state varint `1`. -/
def Client.status_handshake_packet (hostname : List Nat) (port : Nat) :
    Except String Packet := do
  let p := Packet.new
  let p ← p.write_varint 0x00
  let p ← p.write_varint 759
  let p ← p.write_string hostname
  let p := p.write_slice (port_be_bytes port)
  p.write_varint 1

/-- Length-prefix loop of `Client::read_packet` (`src/lib.rs:271-283`): bytes
are pulled off the stream one at a time into `response.buffer`; once the
buffer exceeds 5 bytes the function returns `Ok(None)`, and a byte with the
continuation bit clear ends the loop and hands over to the rest of the
function (`read_packet_rest`).  An empty stream is `read_exact` failing with
end-of-file. -/
def read_packet_rest (response : Packet) (stream : List Nat) :
    Except String (Option Packet × List Nat) :=
  match response.read_varint with
  | .error e => .error e
  | .ok (lenPat, response) =>
    let payload_length := usizeOfI32 lenPat
    let response := { response with buffer := response.buffer ++ List.replicate payload_length 0 }
    let need := response.buffer.length - response.cursor
    if stream.length < need then .error "failed to fill whole buffer"
    else
      let response := { response with buffer := response.buffer.take response.cursor ++ stream.take need }
      match response.read_protocol_id with
      | .error e => .error e
      | .ok (_, response) => .ok (some response, stream.drop need)

/-- See `read_packet_rest`; this is the byte-at-a-time length-prefix loop. -/
def read_packet_loop (response : Packet) : List Nat → Except String (Option Packet × List Nat)
  | [] => .error "failed to fill whole buffer"
  | byte :: rest =>
    let response := { response with buffer := response.buffer ++ [byte] }
    if response.buffer.length > 5 then .ok (none, rest)
    else if byte &&& VARINT_CONTINUE_BIT = 0 then read_packet_rest response rest
    else read_packet_loop response rest

/-- `Client::read_packet` (`src/lib.rs:269-294`), as a function of the
inbound byte stream: reads the varint length prefix one byte at a time
(aborting with `Ok(None)` when it exceeds 5 bytes), resizes the buffer by
the decoded payload length, reads exactly that many payload bytes, and
decodes the protocol id.  Returns the packet and the unconsumed stream. -/
def Client.read_packet (stream : List Nat) : Except String (Option Packet × List Nat) :=
  read_packet_loop Packet.new stream

/-- `Client::block_until_packet_id` (`src/lib.rs:250-267`), as a function of
the inbound byte stream.  The Rust loop is unbounded; `fuel` bounds the
number of iterations in the model, and running out of fuel is reported as a
distinguished error that no theorem below identifies with a source
behaviour. -/
def Client.block_until_packet_id (fuel : Nat) (packet_id : Nat) (stream : List Nat) :
    Except String (Packet × List Nat) :=
  match fuel with
  | 0 => .error "model: out of fuel"
  | fuel + 1 =>
    match Client.read_packet stream with
    | .error e => .error e
    | .ok (none, stream') => Client.block_until_packet_id fuel packet_id stream'
    | .ok (some packet, stream') =>
      match packet.get_protocol_id with
      | none => Client.block_until_packet_id fuel packet_id stream'
      | some id =>
        if id = packet_id then .ok (packet, stream')
        else Client.block_until_packet_id fuel packet_id stream'

/-- Byte list produced by one `write_varint` call for the 32-bit pattern `v`
(the canonical little-endian base-128 groups).  Used to state and prove the
round-trip lemmas; `write_varint_append` below proves that `write_varint`
appends exactly these bytes. -/
def encVarint (v : Nat) : List Nat :=
  if h : v &&& NOT_SEGMENT_BITS = 0 then [v % 256]
  else ((v &&& VARINT_SEGMENT_BITS) ||| VARINT_CONTINUE_BIT) % 256 :: encVarint (v >>> 7)
termination_by v
decreasing_by
  have hv : v ≠ 0 := by
    intro h0
    subst h0
    simp [NOT_SEGMENT_BITS] at h
  simpa [Nat.shiftRight_eq_div_pow] using Nat.div_lt_self (Nat.pos_of_ne_zero hv) (by norm_num)

/-- Abstract single step on a `Packet`: one call of one codec operation,
keeping the packet state it leaves behind (for a failing call, the model
keeps the packet unchanged; no failure path of the source ever writes the
`protocol_id` field, which is the only field the lifecycle theorems track). -/
inductive PacketOp where
  | write_string (v : List Nat)
  | read_string
  | write_varint (v : Nat)
  | read_varint
  | write_slice (s : List Nat)
  | read_slice (n : Nat)
  | read_protocol_id
  | get_protocol_id
deriving Repr, DecidableEq

/-- Packet state after running one operation (see `PacketOp`). -/
def PacketOp.apply (op : PacketOp) (p : Packet) : Packet :=
  match op with
  | .write_string v => match p.write_string v with | .ok q => q | .error _ => p
  | .read_string => match p.read_string with | .ok r => r.2 | .error _ => p
  | .write_varint v => match p.write_varint v with | .ok q => q | .error _ => p
  | .read_varint => match p.read_varint with | .ok r => r.2 | .error _ => p
  | .write_slice s => p.write_slice s
  | .read_slice n => match p.read_slice n with | .ok r => r.2 | .error _ => p
  | .read_protocol_id => match p.read_protocol_id with | .ok r => r.2 | .error _ => p
  | .get_protocol_id => p

/-- Packet state after a sequence of operations. -/
def applyOps (ops : List PacketOp) (p : Packet) : Packet :=
  ops.foldl (fun q op => op.apply q) p

/-- Payload bytes of an encoding result (empty list on error); lets the
byte-for-byte statements about `status_handshake_packet` be written without
binders. -/
def payload_of : Except String Packet → List Nat
  | .ok p => p.buffer
  | .error _ => []

/-- Byte list for the hostname `"localhost"`. -/
def localhost_bytes : List Nat :=
  [0x6C, 0x6F, 0x63, 0x61, 0x6C, 0x68, 0x6F, 0x73, 0x74]

/-- A six-byte stream prefix whose bytes all carry the continuation bit:
`read_packet` classifies it as "no packet".  (Claim C5's skip chunks.) -/
def IsNoPacketChunk (c : List Nat) : Prop :=
  c.length = 6 ∧ ∀ i, i < 6 → c.getD i 0 &&& VARINT_CONTINUE_BIT ≠ 0

/-- A well-formed frame on the wire: a varint length prefix of at most 5
bytes (continuation bytes followed by one terminator) decoding to the
payload length `L ≥ 1`, followed by the `L` payload bytes, whose first byte
is the protocol id `id`. -/
def IsFrameChunk (c : List Nat) (id : Nat) : Prop :=
  ∃ pre payload L,
    c = pre ++ payload ∧ pre ≠ [] ∧ pre.length ≤ 5 ∧
    (∀ i, i < pre.length - 1 → pre.getD i 0 &&& VARINT_CONTINUE_BIT ≠ 0) ∧
    pre.getD (pre.length - 1) 0 &&& VARINT_CONTINUE_BIT = 0 ∧
    Packet.read_varint (Packet.from_bytes pre) = .ok (L, ⟨pre, pre.length, none⟩) ∧
    L < 2 ^ 31 ∧ 1 ≤ L ∧ payload.length = L ∧ payload.getD 0 0 = id

/-! ### Bit-level helper lemmas -/

/-- Splitting off the low 7 bits commutes with the varint reassembly shift:
the bits contributed by one group and by the remaining groups recombine to
the original value. -/
lemma seg_recombine (v bp : Nat) :
    ((v &&& 127) <<< bp) ||| ((v >>> 7) <<< (bp + 7)) = v <<< bp := by
  apply Nat.eq_of_testBit_eq
  intro i
  have h127 : (127 : Nat) = 2 ^ 7 - 1 := by norm_num
  simp only [Nat.testBit_or, Nat.testBit_shiftLeft, Nat.testBit_and, Nat.testBit_shiftRight,
    h127, Nat.testBit_two_pow_sub_one, ge_iff_le]
  by_cases h2 : bp + 7 ≤ i
  · have h1 : bp ≤ i := by omega
    have e : 7 + (i - (bp + 7)) = i - bp := by omega
    simp only [h1, h2, e, decide_True, Bool.true_and]
    cases hv : Nat.testBit v (i - bp) <;> simp
  · by_cases h1 : bp ≤ i
    · have e : i - bp < 7 := by omega
      simp [h1, h2, e]
    · simp [h1, h2]

/-- The mask `!0x7F` keeps exactly bits 7 to 31 of a 32-bit word. -/
lemma and_not_segment (v : Nat) :
    v &&& NOT_SEGMENT_BITS = ((v >>> 7) % 2 ^ 25) <<< 7 := by
  have hm : NOT_SEGMENT_BITS = (2 ^ 25 - 1) <<< 7 := by
    norm_num [NOT_SEGMENT_BITS, Nat.shiftLeft_eq]
  rw [hm]
  apply Nat.eq_of_testBit_eq
  intro i
  simp only [Nat.testBit_and, Nat.testBit_shiftLeft, Nat.testBit_mod_two_pow,
    Nat.testBit_shiftRight, Nat.testBit_two_pow_sub_one, ge_iff_le]
  by_cases h : 7 ≤ i
  · have e : 7 + (i - 7) = i := by omega
    simp only [h, e, decide_True, Bool.true_and]
    cases hv : Nat.testBit v i <;> simp
  · simp [h]

/-- For a 32-bit pattern, the `write_varint` stop condition
`value & !0x7F == 0` says exactly that the value fits in 7 bits. -/
lemma and_not_segment_eq_zero_iff {v : Nat} (hv : v < U32_MOD) :
    v &&& NOT_SEGMENT_BITS = 0 ↔ v < 128 := by
  rw [and_not_segment]
  have h7 : v >>> 7 = v / 128 := by
    simp [Nat.shiftRight_eq_div_pow]
  have hlt : v / 128 < 2 ^ 25 := by
    apply Nat.div_lt_of_lt_mul
    calc v < U32_MOD := hv
    _ = 128 * 2 ^ 25 := by norm_num [U32_MOD]
  rw [h7, Nat.mod_eq_of_lt hlt, Nat.shiftLeft_eq]
  constructor
  · intro h
    rcases Nat.mul_eq_zero.mp h with h' | h'
    · omega
    · norm_num at h'
  · intro h
    rw [Nat.div_eq_of_lt h]

/-- Small-byte mask facts (`a & 0x7F`, `a & 0x80` for a data byte). -/
lemma low_byte_facts : ∀ a, a < 128 → a % 256 = a ∧ a &&& 127 = a ∧ a &&& 128 = 0 := by decide

/-- Continuation-byte mask facts (`(a | 0x80)` for 7-bit `a`). -/
lemma cont_byte_facts :
    ∀ a, a < 128 → (a ||| 128) % 256 = a + 128 ∧ (a + 128) &&& 127 = a ∧ (a + 128) &&& 128 = 128 := by
  decide

/-! ### encVarint lemmas -/

/-- Unfolding of `encVarint` in the one-byte case. -/
lemma encVarint_stop {v : Nat} (h : v &&& NOT_SEGMENT_BITS = 0) : encVarint v = [v % 256] := by
  rw [encVarint]
  simp [h]

/-- Unfolding of `encVarint` in the continuation case. -/
lemma encVarint_cont {v : Nat} (h : ¬v &&& NOT_SEGMENT_BITS = 0) :
    encVarint v =
      ((v &&& VARINT_SEGMENT_BITS) ||| VARINT_CONTINUE_BIT) % 256 :: encVarint (v >>> 7) := by
  rw [encVarint]
  simp [h]

/-- A value below `2^(7n)` encodes in at most `n` bytes. -/
lemma encVarint_length : ∀ n, 1 ≤ n → ∀ v, v < 2 ^ (7 * n) → (encVarint v).length ≤ n := by
  intro n
  induction n with
  | zero => omega
  | succ n ih =>
    intro _ v hv
    by_cases h : v &&& NOT_SEGMENT_BITS = 0
    · rw [encVarint_stop h]
      simp
    · rw [encVarint_cont h]
      have hn1 : 1 ≤ n := by
        rcases Nat.eq_zero_or_pos n with h0 | h0
        · exfalso
          subst h0
          have hv128 : v < 128 := by
            norm_num at hv
            omega
          exact h ((and_not_segment_eq_zero_iff (by norm_num [U32_MOD]; omega)).mpr hv128)
        · exact h0
      have hrec : v >>> 7 < 2 ^ (7 * n) := by
        rw [Nat.shiftRight_eq_div_pow]
        apply Nat.div_lt_of_lt_mul
        calc v < 2 ^ (7 * (n + 1)) := hv
        _ = 2 ^ 7 * 2 ^ (7 * n) := by
          rw [← pow_add]
          ring_nf
      simpa using ih hn1 _ hrec

/-- When the stop condition fails for a value below `2^(7(n+1))`, at least one
more full group exists, so `n` itself is at least 1. -/
lemma one_le_of_not_stop {v n : Nat} (h : ¬v &&& NOT_SEGMENT_BITS = 0)
    (hv : v < 2 ^ (7 * (n + 1))) : 1 ≤ n := by
  rcases Nat.eq_zero_or_pos n with h0 | h0
  · exfalso
    have hv128 : v < 128 := by
      subst h0
      norm_num at hv
      omega
    exact h ((and_not_segment_eq_zero_iff (by norm_num [U32_MOD]; omega)).mpr hv128)
  · exact h0

/-- A 32-bit value that fails the stop condition is at least 128. -/
lemma ge_128_of_not_stop {v : Nat} (hv : v < U32_MOD) (h : ¬v &&& NOT_SEGMENT_BITS = 0) :
    128 ≤ v := by
  by_contra hc
  exact h ((and_not_segment_eq_zero_iff hv).mpr (by omega))

/-- Dividing out one 7-bit group keeps the value below the next power bound. -/
lemma shiftRight7_lt {v n : Nat} (hv : v < 2 ^ (7 * (n + 1))) : v >>> 7 < 2 ^ (7 * n) := by
  rw [Nat.shiftRight_eq_div_pow]
  apply Nat.div_lt_of_lt_mul
  calc v < 2 ^ (7 * (n + 1)) := hv
  _ = 2 ^ 7 * 2 ^ (7 * n) := by
    rw [← pow_add]
    ring_nf

/-- `write_varint_go` with enough fuel appends exactly `encVarint value`. -/
lemma write_varint_go_append :
    ∀ fuel, 1 ≤ fuel → ∀ (p : Packet) (v : Nat), v < 2 ^ (7 * fuel) →
      write_varint_go p v fuel = .ok { p with buffer := p.buffer ++ encVarint v } := by
  intro fuel
  induction fuel with
  | zero => omega
  | succ fuel ih =>
    intro _ p v hv
    by_cases h : v &&& NOT_SEGMENT_BITS = 0
    · simp [write_varint_go, h, encVarint_stop h]
    · have hn1 : 1 ≤ fuel := one_le_of_not_stop h hv
      have hrec : v >>> 7 < 2 ^ (7 * fuel) := shiftRight7_lt hv
      have hstep : write_varint_go p v (fuel + 1) =
          write_varint_go
            { p with buffer :=
                p.buffer ++ [((v &&& VARINT_SEGMENT_BITS) ||| VARINT_CONTINUE_BIT) % 256] }
            (v >>> 7) fuel := by
        simp [write_varint_go, h]
      rw [hstep, ih hn1 _ _ hrec, encVarint_cont h]
      simp

/-- `Packet.write_varint` on any 32-bit pattern appends exactly
`encVarint value` and leaves cursor and protocol id alone. -/
lemma write_varint_append {p : Packet} {v : Nat} (hv : v < U32_MOD) :
    p.write_varint v = .ok { p with buffer := p.buffer ++ encVarint v } :=
  write_varint_go_append 5 (by norm_num) p v
    (lt_trans hv (by norm_num [U32_MOD]))

/-- Element read at the cursor position when the buffer splits there. -/
lemma getD_at_append (A tail : List Nat) (x : Nat) :
    (A ++ x :: tail).getD A.length 0 = x := by
  rw [List.getD_append_right _ _ _ _ (le_refl A.length)]
  simp

/-- Reading back an encoded varint: starting at bit position `bp` with
accumulator `acc`, decoding the bytes `encVarint v` ORs `v <<< bp` into the
accumulator and stops right after the last encoded byte. -/
lemma read_varint_go_enc :
    ∀ (v fuel bp acc : Nat) (A B : List Nat) (pid : Option Nat),
      (encVarint v).length ≤ fuel → v * 2 ^ bp < U32_MOD → acc < U32_MOD →
      read_varint_go ⟨A ++ encVarint v ++ B, A.length, pid⟩ acc bp fuel =
        .ok (acc ||| v <<< bp, ⟨A ++ encVarint v ++ B, A.length + (encVarint v).length, pid⟩) := by
  intro v
  induction v using Nat.strong_induction_on with
  | _ v ih =>
    intro fuel bp acc A B pid hfuel hbound hacc
    have hv32 : v < U32_MOD :=
      lt_of_le_of_lt (Nat.le_mul_of_pos_right v (pow_pos (by norm_num) bp)) hbound
    have hshift : v <<< bp < U32_MOD := by
      rw [Nat.shiftLeft_eq]
      exact hbound
    by_cases h : v &&& NOT_SEGMENT_BITS = 0
    · -- single final byte
      have hv128 : v < 128 := (and_not_segment_eq_zero_iff hv32).mp h
      have henc : encVarint v = [v] := by
        rw [encVarint_stop h, (low_byte_facts v hv128).1]
      rw [henc] at hfuel ⊢
      obtain ⟨f, rfl⟩ : ∃ f, fuel = f + 1 := ⟨fuel - 1, by simp at hfuel; omega⟩
      have hshape : A ++ [v] ++ B = A ++ v :: B := by simp
      rw [hshape]
      have hcur : ¬(A ++ v :: B).length ≤ A.length := by simp
      have hbyte : (A ++ v :: B).getD A.length 0 = v := getD_at_append A B v
      simp only [read_varint_go, ge_iff_le, hcur, if_false, hbyte, VARINT_SEGMENT_BITS,
        VARINT_CONTINUE_BIT, ite_false, ite_true, (low_byte_facts v hv128).2.1,
        (low_byte_facts v hv128).2.2, if_pos rfl]
      rw [Nat.mod_eq_of_lt hshift]
      simp
    · -- continuation byte then recurse
      have hv128 : 128 ≤ v := ge_128_of_not_stop hv32 h
      have ha : v &&& 127 < 128 := lt_of_le_of_lt Nat.and_le_right (by norm_num)
      have hb : ((v &&& VARINT_SEGMENT_BITS) ||| VARINT_CONTINUE_BIT) % 256 = (v &&& 127) + 128 := by
        simp only [VARINT_SEGMENT_BITS, VARINT_CONTINUE_BIT]
        exact (cont_byte_facts _ ha).1
      have henc : encVarint v = ((v &&& 127) + 128) :: encVarint (v >>> 7) := by
        rw [encVarint_cont h, hb]
      rw [henc] at hfuel ⊢
      obtain ⟨f, rfl⟩ : ∃ f, fuel = f + 1 := ⟨fuel - 1, by simp at hfuel; omega⟩
      have hshape : A ++ ((v &&& 127) + 128) :: encVarint (v >>> 7) ++ B =
          A ++ ((v &&& 127) + 128) :: (encVarint (v >>> 7) ++ B) := by simp
      rw [hshape]
      have hcur : ¬(A ++ ((v &&& 127) + 128) :: (encVarint (v >>> 7) ++ B)).length ≤ A.length := by
        simp
      have hbyte : (A ++ ((v &&& 127) + 128) :: (encVarint (v >>> 7) ++ B)).getD A.length 0 =
          (v &&& 127) + 128 := getD_at_append _ _ _
      have hbp7 : ¬32 ≤ bp + 7 := by
        intro hcontra
        have h1 : (2 : Nat) ^ 32 ≤ 2 ^ (7 + bp) := by
          apply Nat.pow_le_pow_right (by norm_num)
          omega
        have h2 : (2 : Nat) ^ (7 + bp) ≤ v * 2 ^ bp := by
          rw [pow_add]
          exact Nat.mul_le_mul_right _ (by norm_num; omega)
        have : U32_MOD ≤ v * 2 ^ bp := by
          calc U32_MOD = 2 ^ 32 := by norm_num [U32_MOD]
          _ ≤ 2 ^ (7 + bp) := h1
          _ ≤ v * 2 ^ bp := h2
        omega
      have hsegbyte : ((v &&& 127) + 128) &&& VARINT_SEGMENT_BITS = v &&& 127 := by
        simp only [VARINT_SEGMENT_BITS]
        exact (cont_byte_facts _ ha).2.1
      have hcontbyte : ¬((v &&& 127) + 128) &&& VARINT_CONTINUE_BIT = 0 := by
        simp only [VARINT_CONTINUE_BIT]
        rw [(cont_byte_facts _ ha).2.2]
        norm_num
      have hsegshift : (v &&& 127) <<< bp < U32_MOD := by
        rw [Nat.shiftLeft_eq]
        exact lt_of_le_of_lt (Nat.mul_le_mul_right _ Nat.and_le_left) hbound
      have hacc' : acc ||| (v &&& 127) <<< bp < U32_MOD := by
        have hu : U32_MOD = 2 ^ 32 := by norm_num [U32_MOD]
        rw [hu] at hacc hsegshift ⊢
        exact Nat.or_lt_two_pow hacc hsegshift
      have hrecbound : (v >>> 7) * 2 ^ (bp + 7) < U32_MOD := by
        calc (v >>> 7) * 2 ^ (bp + 7) = (v >>> 7) * (2 ^ bp * 2 ^ 7) := by rw [pow_add]
        _ = (v >>> 7) * 2 ^ 7 * 2 ^ bp := by ring
        _ ≤ v * 2 ^ bp := by
          apply Nat.mul_le_mul_right
          calc (v >>> 7) * 2 ^ 7 = v / 2 ^ 7 * 2 ^ 7 := by rw [Nat.shiftRight_eq_div_pow]
          _ ≤ v := Nat.div_mul_le_self v _
        _ < U32_MOD := hbound
      have hlt : v >>> 7 < v := by
        rw [Nat.shiftRight_eq_div_pow]
        exact Nat.div_lt_self (by omega) (by norm_num)
      have hrec := ih (v >>> 7) hlt f (bp + 7) (acc ||| (v &&& 127) <<< bp)
        (A ++ [(v &&& 127) + 128]) B pid (by simp at hfuel ⊢; omega) hrecbound hacc'
      have hAform : (A ++ [(v &&& 127) + 128]) ++ encVarint (v >>> 7) ++ B =
          A ++ ((v &&& 127) + 128) :: (encVarint (v >>> 7) ++ B) := by simp
      have hAlen : (A ++ [(v &&& 127) + 128]).length = A.length + 1 := by simp
      rw [hAform, hAlen] at hrec
      simp only [read_varint_go, ge_iff_le, hcur, if_false, hbyte, hsegbyte, hcontbyte,
        ite_false, hbp7, if_neg hcontbyte, if_neg hbp7]
      rw [Nat.mod_eq_of_lt hsegshift]
      rw [hrec, Nat.or_assoc, seg_recombine]
      have hcl : A.length + 1 + (encVarint (v >>> 7)).length =
          A.length + (((v &&& 127) + 128) :: encVarint (v >>> 7)).length := by
        simp only [List.length_cons]
        omega
      rw [hcl]

/-! ### Claim C1: varint round-trip -/

/-- Claim C1: for every signed 32-bit integer `v` in `[0, 2^31-1]`, writing
`v` with `write_varint` into a fresh `Packet` and then decoding that buffer
with `read_varint` (cursor starting at 0) returns exactly `v`. -/
theorem varint_round_trip (v : Nat) (h : v < 2 ^ 31) :
    ∃ q : Packet, Packet.new.write_varint v = .ok q ∧
      ∃ r : Packet, q.read_varint = .ok (v, r) := by
  have hv32 : v < U32_MOD := lt_trans h (by norm_num [U32_MOD])
  have hlen : (encVarint v).length ≤ 5 :=
    encVarint_length 5 (by norm_num) v (lt_trans hv32 (by norm_num [U32_MOD]))
  have hr := read_varint_go_enc v 5 0 0 [] [] none hlen (by simpa using hv32)
    (by norm_num [U32_MOD])
  simp only [List.nil_append, List.append_nil, List.length_nil, Nat.zero_add,
    Nat.shiftLeft_zero, Nat.zero_or] at hr
  refine ⟨⟨encVarint v, 0, none⟩, ?_, ⟨encVarint v, (encVarint v).length, none⟩, hr⟩
  rw [write_varint_append hv32]
  simp [Packet.new]

/-- Witness for C1 at `v = 300`. -/
theorem varint_round_trip_witness :
    (300 : Nat) < 2 ^ 31 ∧
      ∃ q : Packet, Packet.new.write_varint 300 = .ok q ∧
        ∃ r : Packet, q.read_varint = .ok (300, r) :=
  ⟨by norm_num, varint_round_trip 300 (by norm_num)⟩

/-! ### Claim C10: write_varint is total for 32-bit inputs -/

/-- Claim C10: `write_varint` never fails.  For every i32 input (any 32-bit
pattern, negative values included) it returns `Ok`, appends at most 5 bytes
to the buffer, and leaves cursor and protocol id unchanged - the
`iterations > 5` error branch is unreachable. -/
theorem write_varint_never_fails (p : Packet) (v : Nat) (hv : v < U32_MOD) :
    ∃ q : Packet, p.write_varint v = .ok q ∧
      (∃ extra : List Nat, q.buffer = p.buffer ++ extra ∧ extra.length ≤ 5) ∧
      q.cursor = p.cursor ∧ q.protocol_id = p.protocol_id := by
  refine ⟨_, write_varint_append hv, ⟨encVarint v, rfl, ?_⟩, rfl, rfl⟩
  exact encVarint_length 5 (by norm_num) v (lt_trans hv (by norm_num [U32_MOD]))

/-- Witness for C10 at the all-ones pattern (`-1` as i32), which needs the
full 5 bytes. -/
theorem write_varint_never_fails_witness :
    (4294967295 : Nat) < U32_MOD ∧
      ∃ q : Packet, Packet.new.write_varint 4294967295 = .ok q ∧
        (∃ extra : List Nat, q.buffer = Packet.new.buffer ++ extra ∧ extra.length ≤ 5) ∧
        q.cursor = Packet.new.cursor ∧ q.protocol_id = Packet.new.protocol_id :=
  ⟨by norm_num [U32_MOD],
   write_varint_never_fails Packet.new 4294967295 (by norm_num [U32_MOD])⟩

/-! ### Claim C7: read_varint termination and the oversized-varint error -/

/-- One unfolding step of `read_varint_go` when a byte is available. -/
lemma read_varint_go_succ (p : Packet) (acc bp fuel : Nat) (hc : p.cursor < p.buffer.length) :
    read_varint_go p acc bp (fuel + 1) =
      (if p.buffer.getD p.cursor 0 &&& VARINT_CONTINUE_BIT = 0 then
        .ok (acc ||| ((p.buffer.getD p.cursor 0 &&& VARINT_SEGMENT_BITS) <<< bp) % U32_MOD,
          { p with cursor := p.cursor + 1 })
      else if 32 ≤ bp + 7 then .error "Varint too large"
      else
        read_varint_go { p with cursor := p.cursor + 1 }
          (acc ||| ((p.buffer.getD p.cursor 0 &&& VARINT_SEGMENT_BITS) <<< bp) % U32_MOD)
          (bp + 7) fuel) := by
  simp only [read_varint_go]
  rw [if_neg (Nat.not_le.mpr hc)]

/-- With any amount of fuel, `read_varint_go` yields a value or one of the
two `FramingError` messages. -/
lemma read_varint_go_trichotomy :
    ∀ (fuel : Nat) (p : Packet) (acc bp : Nat),
      (∃ r, read_varint_go p acc bp fuel = .ok r) ∨
      read_varint_go p acc bp fuel = .error "Buffer is too short to read a valid varint" ∨
      read_varint_go p acc bp fuel = .error "Varint too large" := by
  intro fuel
  induction fuel with
  | zero =>
    intro p acc bp
    right; right; rfl
  | succ fuel ih =>
    intro p acc bp
    by_cases hc : p.cursor ≥ p.buffer.length
    · right; left
      simp only [read_varint_go]
      rw [if_pos hc]
    · rw [read_varint_go_succ p acc bp fuel (Nat.not_le.mp hc)]
      by_cases hb : p.buffer.getD p.cursor 0 &&& VARINT_CONTINUE_BIT = 0
      · left
        exact ⟨_, by rw [if_pos hb]⟩
      · rw [if_neg hb]
        by_cases h32 : 32 ≤ bp + 7
        · right; right
          rw [if_pos h32]
        · rw [if_neg h32]
          exact ih _ _ _

/-- If every remaining byte carries the continuation bit and at least `fuel`
bytes remain, `read_varint_go` ends in the oversized-varint error. -/
lemma read_varint_go_all_cont :
    ∀ (fuel : Nat) (p : Packet) (acc bp : Nat),
      (∀ i, i < fuel → p.buffer.getD (p.cursor + i) 0 &&& VARINT_CONTINUE_BIT ≠ 0) →
      p.cursor + fuel ≤ p.buffer.length →
      read_varint_go p acc bp fuel = .error "Varint too large" := by
  intro fuel
  induction fuel with
  | zero =>
    intro p acc bp _ _
    rfl
  | succ fuel ih =>
    intro p acc bp hcont hlen
    have hc : p.cursor < p.buffer.length := by omega
    have hb : ¬p.buffer.getD p.cursor 0 &&& VARINT_CONTINUE_BIT = 0 := by
      have h0 := hcont 0 (by omega)
      simpa using h0
    rw [read_varint_go_succ p acc bp fuel hc, if_neg hb]
    by_cases h32 : 32 ≤ bp + 7
    · rw [if_pos h32]
    · rw [if_neg h32]
      apply ih
      · intro i hi
        have h1 := hcont (i + 1) (by omega)
        have e : p.cursor + (i + 1) = p.cursor + 1 + i := by omega
        rw [e] at h1
        simpa using h1
      · show p.cursor + 1 + fuel ≤ p.buffer.length
        omega

/-- Claim C7: `read_varint` terminates on every input buffer and cursor
position, returning a value, the buffer-too-short error, or the
oversized-varint error; and on a buffer of 6 or more bytes that all carry
the continuation bit (read from cursor 0) it fails with the oversized error. -/
theorem read_varint_total_and_oversized :
    (∀ p : Packet,
        (∃ r, p.read_varint = .ok r) ∨
        p.read_varint = .error "Buffer is too short to read a valid varint" ∨
        p.read_varint = .error "Varint too large") ∧
    (∀ p : Packet, 6 ≤ p.buffer.length → p.cursor = 0 →
        (∀ i, i < p.buffer.length → p.buffer.getD i 0 &&& VARINT_CONTINUE_BIT ≠ 0) →
        p.read_varint = .error "Varint too large") := by
  constructor
  · intro p
    exact read_varint_go_trichotomy 5 p 0 0
  · intro p hlen hcur hcont
    apply read_varint_go_all_cont 5 p 0 0
    · intro i hi
      have := hcont (p.cursor + i) (by omega)
      exact this
    · omega

/-- Witness for C7: a decodable one-byte buffer for the trichotomy, and six
continuation-only bytes for the oversized error. -/
theorem read_varint_total_and_oversized_witness :
    ((∃ r, (Packet.from_bytes [5]).read_varint = .ok r) ∨
      (Packet.from_bytes [5]).read_varint = .error "Buffer is too short to read a valid varint" ∨
      (Packet.from_bytes [5]).read_varint = .error "Varint too large") ∧
    (6 ≤ (Packet.from_bytes [128, 128, 128, 128, 128, 128]).buffer.length ∧
      (Packet.from_bytes [128, 128, 128, 128, 128, 128]).cursor = 0 ∧
      (Packet.from_bytes [128, 128, 128, 128, 128, 128]).read_varint =
        .error "Varint too large") :=
  ⟨read_varint_total_and_oversized.1 (Packet.from_bytes [5]),
   by norm_num [Packet.from_bytes],
   rfl,
   read_varint_total_and_oversized.2 (Packet.from_bytes [128, 128, 128, 128, 128, 128])
     (by norm_num [Packet.from_bytes]) rfl (by decide)⟩

/-! ### Claim C2: read_slice bound check (code bug) -/

/-- Claim C2 is violated by the code: the bound check
`cursor + amount > buffer.len() - 1` rejects an exact-fit read.  With one
byte remaining, `read_slice 1` errors, while a strictly interior read of the
same size succeeds. -/
theorem read_slice_boundary_bug :
    (Packet.from_bytes [42]).read_slice 1 = .error "Could not read slice past buffer." ∧
    (Packet.from_bytes [42, 43]).read_slice 1 = .ok ([42], ⟨[42, 43], 1, none⟩) :=
  ⟨rfl, rfl⟩

/-! ### Claim C3: read_string on malformed input (code bug) -/

/-- Claim C3 is violated by the code: when the declared string length
exceeds the remaining buffer bytes, the unchecked slice index in
`read_string` panics (aborts) instead of returning a `FramingError`; the
invalid-UTF-8 path does return an error as claimed. -/
theorem read_string_panics_on_overrun :
    (Packet.from_bytes [5, 65]).read_string = .error .panic ∧
    (Packet.from_bytes [1, 255]).read_string = .error .utf8Err :=
  ⟨rfl, rfl⟩

/-! ### Claim C6: handshake payload bytes (corrected) -/

/-- Counterexample for C6: the `status()` handshake payload for
`"localhost"`, port 25565 is not the claim's 15-byte sequence ending at the
port bytes `63 DD` - the next-state varint `01` is part of the payload. -/
theorem status_handshake_payload_cex :
    payload_of (Client.status_handshake_packet localhost_bytes 25565) ≠
      [0x00, 0xF7, 0x05, 0x09, 0x6C, 0x6F, 0x63, 0x61, 0x6C, 0x68, 0x6F, 0x73, 0x74,
        0x63, 0xDD] := by
  decide

/-- Claim C6 as amended: the `status()` handshake payload for
`"localhost"`, port 25565 is byte-for-byte
`00 F7 05 09 6C 6F 63 61 6C 68 6F 73 74 63 DD 01` (protocol id, varint 759,
length-prefixed hostname, big-endian port, next-state varint 1). -/
theorem status_handshake_payload_bytes :
    Client.status_handshake_packet localhost_bytes 25565 =
      .ok ⟨[0x00, 0xF7, 0x05, 0x09, 0x6C, 0x6F, 0x63, 0x61, 0x6C, 0x68, 0x6F, 0x73, 0x74,
            0x63, 0xDD, 0x01], 0, none⟩ :=
  rfl

/-! ### Claim C8: invalidate_handshake -/

/-- Claim C8: `invalidate_handshake` redials and replaces both stream halves
exactly when the `handshake_performed` flag is set at entry (the flag is
assigned `true` again, not cleared), and is the identity when the flag is
clear; on every successful return the flag keeps its prior value and
hostname and port are unchanged. -/
theorem invalidate_handshake_spec :
    ∀ (c : Client) (connect : Except String Nat),
      (c.handshake_performed = false → c.invalidate_handshake connect = .ok c) ∧
      (c.handshake_performed = true → ∀ s, connect = .ok s →
        c.invalidate_handshake connect =
          .ok { c with reader := s, writer := s, handshake_performed := true }) ∧
      (∀ c', c.invalidate_handshake connect = .ok c' →
        c'.handshake_performed = c.handshake_performed ∧
        c'.hostname = c.hostname ∧ c'.port = c.port) := by
  intro c connect
  refine ⟨?_, ?_, ?_⟩
  · intro hf
    simp [Client.invalidate_handshake, hf]
  · intro ht s hs
    subst hs
    simp [Client.invalidate_handshake, ht]
  · intro c' h
    unfold Client.invalidate_handshake at h
    by_cases hf : c.handshake_performed = true
    · rw [if_pos hf] at h
      cases connect with
      | error e => exact Except.noConfusion h
      | ok s =>
        have h' := Except.ok.inj h
        rw [← h']
        exact ⟨hf.symm, rfl, rfl⟩
    · rw [if_neg hf] at h
      rw [← Except.ok.inj h]
      exact ⟨rfl, rfl, rfl⟩

/-- Witness for C8: a dialed-before client gets both halves replaced by the
fresh handle 7; an undialed client is returned unchanged. -/
theorem invalidate_handshake_spec_witness :
    (Client.mk true 0 0 [] 1).invalidate_handshake (.ok 7) =
      .ok (Client.mk true 7 7 [] 1) ∧
    (Client.mk false 0 0 [] 1).invalidate_handshake (.ok 7) =
      .ok (Client.mk false 0 0 [] 1) :=
  ⟨(invalidate_handshake_spec (Client.mk true 0 0 [] 1) (.ok 7)).2.1 rfl 7 rfl,
   (invalidate_handshake_spec (Client.mk false 0 0 [] 1) (.ok 7)).1 rfl⟩

/-! ### Claim C9: protocol_id lifecycle -/

/-- `write_varint_go` never touches `protocol_id`. -/
lemma write_varint_go_pid :
    ∀ (fuel : Nat) (p : Packet) (v : Nat) (q : Packet),
      write_varint_go p v fuel = .ok q → q.protocol_id = p.protocol_id := by
  intro fuel
  induction fuel with
  | zero =>
    intro p v q h
    exact Except.noConfusion h
  | succ fuel ih =>
    intro p v q h
    by_cases hs : v &&& NOT_SEGMENT_BITS = 0
    · simp only [write_varint_go, if_pos hs] at h
      rw [← Except.ok.inj h]
    · simp only [write_varint_go, if_neg hs] at h
      have hrec := ih _ _ _ h
      exact hrec

/-- `read_varint_go` never touches `protocol_id`. -/
lemma read_varint_go_pid :
    ∀ (fuel : Nat) (p : Packet) (acc bp : Nat) (r : Nat × Packet),
      read_varint_go p acc bp fuel = .ok r → r.2.protocol_id = p.protocol_id := by
  intro fuel
  induction fuel with
  | zero =>
    intro p acc bp r h
    exact Except.noConfusion h
  | succ fuel ih =>
    intro p acc bp r h
    by_cases hc : p.cursor ≥ p.buffer.length
    · simp only [read_varint_go, if_pos hc] at h
      exact Except.noConfusion h
    · rw [read_varint_go_succ p acc bp fuel (Nat.not_le.mp hc)] at h
      by_cases hb : p.buffer.getD p.cursor 0 &&& VARINT_CONTINUE_BIT = 0
      · rw [if_pos hb] at h
        rw [← Except.ok.inj h]
      · rw [if_neg hb] at h
        by_cases h32 : 32 ≤ bp + 7
        · rw [if_pos h32] at h
          exact Except.noConfusion h
        · rw [if_neg h32] at h
          have hrec := ih _ _ _ _ h
          exact hrec

/-- `write_string` never touches `protocol_id`. -/
lemma write_string_pid (p : Packet) (v : List Nat) (q : Packet)
    (h : p.write_string v = .ok q) : q.protocol_id = p.protocol_id := by
  unfold Packet.write_string at h
  split at h
  · exact Except.noConfusion h
  next q' hw =>
    rw [← Except.ok.inj h]
    exact write_varint_go_pid 5 p _ q' hw

/-- `read_string` never touches `protocol_id`. -/
lemma read_string_pid (p : Packet) (r : List Nat × Packet)
    (h : p.read_string = .ok r) : r.2.protocol_id = p.protocol_id := by
  unfold Packet.read_string at h
  split at h
  · exact Except.noConfusion h
  next lenPat q hv =>
    have h' : (if q.buffer.length < q.cursor + usizeOfI32 lenPat then
          (Except.error StrError.panic : Except StrError (List Nat × Packet))
        else if validUtf8 ((q.buffer.drop q.cursor).take (usizeOfI32 lenPat)) = true then
          Except.ok ((q.buffer.drop q.cursor).take (usizeOfI32 lenPat),
            { q with cursor := q.cursor + usizeOfI32 lenPat })
        else Except.error StrError.utf8Err) = Except.ok r := h
    split at h'
    · exact Except.noConfusion h'
    · split at h'
      · rw [← Except.ok.inj h']
        exact read_varint_go_pid 5 p 0 0 (lenPat, q) hv
      · exact Except.noConfusion h'

/-- `read_slice` never touches `protocol_id`. -/
lemma read_slice_pid (p : Packet) (n : Nat) (r : List Nat × Packet)
    (h : p.read_slice n = .ok r) : r.2.protocol_id = p.protocol_id := by
  unfold Packet.read_slice at h
  split at h
  · exact Except.noConfusion h
  · rw [← Except.ok.inj h]

/-- A successful `read_protocol_id` stores the byte it returns. -/
lemma read_protocol_id_sets (p : Packet) (id : Nat) (q : Packet)
    (h : p.read_protocol_id = .ok (id, q)) : q.protocol_id = some id := by
  unfold Packet.read_protocol_id at h
  split at h
  · exact Except.noConfusion h
  · have h' := Except.ok.inj h
    injection h' with h1 h2
    subst h1
    subst h2
    rfl

/-- Every single operation other than `read_protocol_id` preserves
`protocol_id` (on failure the model keeps the packet, and no failure path
of the source writes the field either). -/
lemma applyOp_pid (p : Packet) (op : PacketOp) (hop : op ≠ PacketOp.read_protocol_id) :
    (op.apply p).protocol_id = p.protocol_id := by
  cases op with
  | write_string v =>
    simp only [PacketOp.apply]
    cases hw : p.write_string v with
    | ok q => exact write_string_pid p v q hw
    | error e => rfl
  | read_string =>
    simp only [PacketOp.apply]
    cases hr : p.read_string with
    | ok r => exact read_string_pid p r hr
    | error e => rfl
  | write_varint v =>
    simp only [PacketOp.apply]
    cases hw : p.write_varint v with
    | ok q => exact write_varint_go_pid 5 p v q hw
    | error e => rfl
  | read_varint =>
    simp only [PacketOp.apply]
    cases hr : p.read_varint with
    | ok r => exact read_varint_go_pid 5 p 0 0 r hr
    | error e => rfl
  | write_slice s => rfl
  | read_slice n =>
    simp only [PacketOp.apply]
    cases hr : p.read_slice n with
    | ok r => exact read_slice_pid p n r hr
    | error e => rfl
  | read_protocol_id => exact absurd rfl hop
  | get_protocol_id => rfl

/-- Sequences avoiding `read_protocol_id` preserve `protocol_id`. -/
lemma applyOps_pid :
    ∀ (ops : List PacketOp) (p : Packet), PacketOp.read_protocol_id ∉ ops →
      (applyOps ops p).protocol_id = p.protocol_id := by
  intro ops
  induction ops with
  | nil =>
    intro p _
    rfl
  | cons op ops ih =>
    intro p hnotin
    have hop : op ≠ PacketOp.read_protocol_id := by
      intro hc
      exact hnotin (by rw [hc]; exact List.mem_cons_self _ _)
    have htail : PacketOp.read_protocol_id ∉ ops := by
      intro hc
      exact hnotin (List.mem_cons_of_mem _ hc)
    show (applyOps ops (op.apply p)).protocol_id = p.protocol_id
    rw [ih _ htail, applyOp_pid p op hop]

/-- Counterexample for C9: `read_protocol_id` is itself a packet operation,
and a second call overwrites the already-set protocol id (`some 1` becomes
`some 2`), so "once set, no subsequent operation ever changes it" fails. -/
theorem read_protocol_id_overwrites :
    (Packet.from_bytes [1, 2]).read_protocol_id = .ok (1, ⟨[1, 2], 1, some 1⟩) ∧
    (Packet.mk [1, 2] 1 (some 1)).read_protocol_id = .ok (2, ⟨[1, 2], 2, some 2⟩) ∧
    some (1 : Nat) ≠ some 2 :=
  ⟨rfl, rfl, by decide⟩

/-- Claim C9 as amended: `protocol_id` is `none` after each constructor and
is preserved by every operation - and every sequence of operations - other
than `read_protocol_id`; a successful `read_protocol_id` sets it to the byte
at the cursor.  (Unlike the original claim, a repeated `read_protocol_id`
may overwrite the stored value.) -/
theorem protocol_id_lifecycle :
    ((∀ bytes, (Packet.from_bytes bytes).protocol_id = none) ∧
      (∀ n, (Packet.with_size n).protocol_id = none) ∧
      Packet.new.protocol_id = none) ∧
    (∀ (p : Packet) (op : PacketOp), op ≠ PacketOp.read_protocol_id →
      (op.apply p).protocol_id = p.protocol_id) ∧
    (∀ (p : Packet) (ops : List PacketOp), PacketOp.read_protocol_id ∉ ops →
      (applyOps ops p).protocol_id = p.protocol_id) ∧
    (∀ (p : Packet) (id : Nat) (q : Packet), p.read_protocol_id = .ok (id, q) →
      q.protocol_id = some id) :=
  ⟨⟨fun _ => rfl, fun _ => rfl, rfl⟩,
   applyOp_pid,
   fun p ops h => applyOps_pid ops p h,
   read_protocol_id_sets⟩

/-- Witness for C9 at concrete packets and operation lists. -/
theorem protocol_id_lifecycle_witness :
    ((PacketOp.read_varint).apply (Packet.from_bytes [7])).protocol_id =
      (Packet.from_bytes [7]).protocol_id ∧
    (applyOps [PacketOp.write_varint 3, PacketOp.read_varint] Packet.new).protocol_id =
      Packet.new.protocol_id ∧
    (⟨[9], 1, some 9⟩ : Packet).protocol_id = some 9 :=
  ⟨protocol_id_lifecycle.2.1 (Packet.from_bytes [7]) PacketOp.read_varint (by decide),
   protocol_id_lifecycle.2.2.1 Packet.new [PacketOp.write_varint 3, PacketOp.read_varint]
     (by decide),
   protocol_id_lifecycle.2.2.2 (Packet.from_bytes [9]) 9 ⟨[9], 1, some 9⟩ rfl⟩

/-! ### Claims C4 and C5: read_packet framing and the dispatch loop -/

/-- One unfolding step of the length-prefix loop. -/
lemma read_packet_loop_cons (response : Packet) (byte : Nat) (rest : List Nat) :
    read_packet_loop response (byte :: rest) =
      (if (response.buffer ++ [byte]).length > 5 then .ok (none, rest)
       else if byte &&& VARINT_CONTINUE_BIT = 0 then
         read_packet_rest { response with buffer := response.buffer ++ [byte] } rest
       else read_packet_loop { response with buffer := response.buffer ++ [byte] } rest) := rfl

/-- After the loop hands over a decodable prefix, `read_packet_rest` reads
exactly the declared number of payload bytes and tags the packet with its
protocol id (the first payload byte). -/
lemma read_packet_rest_frame (pre payload rest : List Nat) (L : Nat)
    (hv : Packet.read_varint (Packet.from_bytes pre) = .ok (L, ⟨pre, pre.length, none⟩))
    (hL31 : L < 2 ^ 31) (hL1 : 1 ≤ L) (hplen : payload.length = L) :
    read_packet_rest ⟨pre, 0, none⟩ (payload ++ rest) =
      .ok (some ⟨pre ++ payload, pre.length + 1, some (payload.getD 0 0)⟩, rest) := by
  have hv' : (⟨pre, 0, none⟩ : Packet).read_varint = .ok (L, ⟨pre, pre.length, none⟩) := hv
  have hus : usizeOfI32 L = L := by
    unfold usizeOfI32
    rw [if_pos (lt_of_lt_of_le hL31 (by norm_num))]
  obtain ⟨ph, pt, rfl⟩ : ∃ ph pt, payload = ph :: pt := by
    cases payload with
    | nil => exfalso; simp at hplen; omega
    | cons ph pt => exact ⟨ph, pt, rfl⟩
  unfold read_packet_rest
  rw [hv']
  simp only [hus]
  have hneed : (pre ++ List.replicate L 0).length - pre.length = L := by simp
  rw [hneed]
  have hplen' : pt.length + 1 = L := by simpa using hplen
  have hif : ¬(ph :: pt ++ rest).length < L := by
    simp only [List.cons_append, List.length_cons, List.length_append]
    omega
  rw [if_neg hif, List.take_left, List.take_left' hplen, List.drop_left' hplen]
  have hbyte : (pre ++ ph :: pt).getD pre.length 0 = ph := getD_at_append pre pt ph
  have hpid : (⟨pre ++ ph :: pt, pre.length, none⟩ : Packet).read_protocol_id =
      .ok (ph, ⟨pre ++ ph :: pt, pre.length + 1, some ph⟩) := by
    unfold Packet.read_protocol_id
    have hcond : ¬pre.length ≥ (pre ++ ph :: pt).length := by simp
    rw [if_neg hcond]
    simp only [hbyte]
  rw [hpid]
  rfl

/-- The length-prefix loop returns the "no packet" outcome after consuming
exactly 6 bytes when the first 5 of them carry the continuation bit
(`done` holds the `6 - k` bytes already consumed). -/
lemma read_packet_loop_none :
    ∀ (k : Nat) (done : List Nat) (stream : List Nat),
      done.length = 6 - k → 1 ≤ k → k ≤ 6 → k ≤ stream.length →
      (∀ i, i < k - 1 → stream.getD i 0 &&& VARINT_CONTINUE_BIT ≠ 0) →
      read_packet_loop ⟨done, 0, none⟩ stream = .ok (none, stream.drop k) := by
  intro k
  induction k with
  | zero => omega
  | succ k ih =>
    intro done stream hdone _ hk6 hlen hcont
    cases stream with
    | nil => simp at hlen
    | cons b rest =>
      rw [read_packet_loop_cons]
      rcases Nat.eq_zero_or_pos k with hk0 | hkpos
      · subst hk0
        have hlen6 : (done ++ [b]).length > 5 := by
          simp [hdone]
        rw [if_pos hlen6]
        rfl
      · have hb : ¬b &&& VARINT_CONTINUE_BIT = 0 := by
          have h0 := hcont 0 (by omega)
          simpa using h0
        have hlen5 : ¬(done ++ [b]).length > 5 := by
          simp only [List.length_append, List.length_singleton]
          omega
        rw [if_neg hlen5, if_neg hb]
        have hres := ih (done ++ [b]) rest
          (by simp only [List.length_append, List.length_singleton]; omega)
          hkpos (by omega) (by simp at hlen; omega)
          (by
            intro i hi
            have h1 := hcont (i + 1) (by omega)
            simpa using h1)
        exact hres

/-- The length-prefix loop consumes a terminated prefix of at most 5 bytes
and hands the accumulated buffer to the rest of `read_packet`. -/
lemma read_packet_loop_to_rest :
    ∀ (toRead : List Nat) (done : List Nat) (stream : List Nat),
      done.length + toRead.length ≤ 5 → toRead ≠ [] →
      (∀ i, i < toRead.length - 1 → toRead.getD i 0 &&& VARINT_CONTINUE_BIT ≠ 0) →
      toRead.getD (toRead.length - 1) 0 &&& VARINT_CONTINUE_BIT = 0 →
      read_packet_loop ⟨done, 0, none⟩ (toRead ++ stream) =
        read_packet_rest ⟨done ++ toRead, 0, none⟩ stream := by
  intro toRead
  induction toRead with
  | nil =>
    intro done stream _ hne _ _
    exact absurd rfl hne
  | cons b t ih =>
    intro done stream hlen _ hcont hlast
    rw [List.cons_append, read_packet_loop_cons]
    have h5 : ¬(done ++ [b]).length > 5 := by
      simp only [List.length_append, List.length_singleton]
      simp only [List.length_cons] at hlen
      omega
    rw [if_neg h5]
    cases t with
    | nil =>
      have hb : b &&& VARINT_CONTINUE_BIT = 0 := by simpa using hlast
      rw [if_pos hb]
      rfl
    | cons b2 t2 =>
      have hb : ¬b &&& VARINT_CONTINUE_BIT = 0 := by
        have h0 := hcont 0 (by simp)
        simpa using h0
      rw [if_neg hb]
      have hres := ih (done ++ [b]) stream
        (by simp at hlen ⊢; omega)
        (by simp)
        (by
          intro i hi
          have h1 := hcont (i + 1) (by simp only [List.length_cons] at hi ⊢; omega)
          simpa using h1)
        (by simpa using hlast)
      rw [hres]
      have hsh : done ++ [b] ++ (b2 :: t2) = done ++ b :: b2 :: t2 := by simp
      rw [hsh]

/-- Claim C4: `read_packet` returns the non-fatal "no packet" outcome
(`Ok(None)`, not an error) on any stream whose first 6 bytes all carry the
continuation bit, and a length prefix of at most 5 bytes is accepted and
decoded as the payload length: the returned frame holds exactly that many
payload bytes, tagged with the first payload byte as protocol id. -/
theorem read_packet_length_prefix_spec :
    (∀ stream : List Nat, 6 ≤ stream.length →
      (∀ i, i < 6 → stream.getD i 0 &&& VARINT_CONTINUE_BIT ≠ 0) →
      Client.read_packet stream = .ok (none, stream.drop 6)) ∧
    (∀ (pre payload rest : List Nat) (L : Nat),
      pre ≠ [] → pre.length ≤ 5 →
      (∀ i, i < pre.length - 1 → pre.getD i 0 &&& VARINT_CONTINUE_BIT ≠ 0) →
      pre.getD (pre.length - 1) 0 &&& VARINT_CONTINUE_BIT = 0 →
      Packet.read_varint (Packet.from_bytes pre) = .ok (L, ⟨pre, pre.length, none⟩) →
      L < 2 ^ 31 → 1 ≤ L → payload.length = L →
      Client.read_packet (pre ++ (payload ++ rest)) =
        .ok (some ⟨pre ++ payload, pre.length + 1, some (payload.getD 0 0)⟩, rest)) := by
  constructor
  · intro stream h6 hcont
    exact read_packet_loop_none 6 [] stream rfl (by norm_num) (by norm_num) h6
      (fun i hi => hcont i (by omega))
  · intro pre payload rest L hne h5 hcont hlast hv hL31 hL1 hplen
    have h1 := read_packet_loop_to_rest pre [] (payload ++ rest) (by simpa using h5) hne
      hcont hlast
    simp only [List.nil_append] at h1
    have h2 := read_packet_rest_frame pre payload rest L hv hL31 hL1 hplen
    exact h1.trans h2

/-- Witness for C4: six continuation bytes give "no packet"; the one-byte
prefix `01` reads a one-byte payload `07`. -/
theorem read_packet_length_prefix_spec_witness :
    Client.read_packet [128, 128, 128, 128, 128, 128, 9, 9] = .ok (none, [9, 9]) ∧
    Client.read_packet ([1] ++ ([7] ++ [5])) = .ok (some ⟨[1] ++ [7], 2, some 7⟩, [5]) :=
  ⟨read_packet_length_prefix_spec.1 [128, 128, 128, 128, 128, 128, 9, 9] (by norm_num)
      (by decide),
   read_packet_length_prefix_spec.2 [1] [7] [5] 1 (by decide) (by norm_num) (by decide)
      (by decide) rfl (by norm_num) (by norm_num) rfl⟩

/-- A no-packet chunk makes `read_packet` return `Ok(None)` and consume
exactly the chunk. -/
lemma read_packet_skip_chunk (c : List Nat) (h : IsNoPacketChunk c) (rest : List Nat) :
    Client.read_packet (c ++ rest) = .ok (none, rest) := by
  obtain ⟨hlen, hcont⟩ := h
  have h1 := read_packet_loop_none 6 [] (c ++ rest) rfl (by norm_num) (by norm_num)
    (by simp [hlen])
    (by
      intro i hi
      rw [List.getD_append _ _ _ _ (by omega : i < c.length)]
      exact hcont i (by omega))
  rw [show (c ++ rest).drop 6 = rest from by rw [← hlen]; exact List.drop_left c rest] at h1
  exact h1

/-- A well-formed frame chunk makes `read_packet` return the decoded frame,
tagged with its protocol id, and consume exactly the chunk. -/
lemma read_packet_frame_chunk (c : List Nat) (id : Nat) (h : IsFrameChunk c id)
    (rest : List Nat) :
    ∃ packet : Packet, Client.read_packet (c ++ rest) = .ok (some packet, rest) ∧
      packet.get_protocol_id = some id ∧ packet.buffer = c := by
  obtain ⟨pre, payload, L, rfl, hne, h5, hcont, hlast, hv, hL31, hL1, hplen, hid⟩ := h
  refine ⟨⟨pre ++ payload, pre.length + 1, some (payload.getD 0 0)⟩, ?_, ?_, rfl⟩
  · have h1 := read_packet_loop_to_rest pre [] (payload ++ rest) (by simpa using h5) hne
      hcont hlast
    simp only [List.nil_append] at h1
    have h2 := read_packet_rest_frame pre payload rest L hv hL31 hL1 hplen
    show read_packet_loop Packet.new ((pre ++ payload) ++ rest) = _
    rw [List.append_assoc]
    exact h1.trans h2
  · show some (payload.getD 0 0) = some id
    rw [hid]

/-- Claim C5: `block_until_packet_id id` silently discards every leading
chunk that decodes as "no packet" or as a frame whose protocol id differs,
and returns the first frame whose decoded protocol id equals `id`; the
returned packet satisfies `get_protocol_id = some id` and holds exactly the
bytes of that frame. -/
theorem block_until_packet_id_spec :
    ∀ (packet_id : Nat) (chunks : List (List Nat)),
      (∀ ch ∈ chunks, IsNoPacketChunk ch ∨ ∃ id, IsFrameChunk ch id ∧ id ≠ packet_id) →
      ∀ (c rest : List Nat), IsFrameChunk c packet_id →
      ∀ fuel, chunks.length < fuel →
      ∃ packet : Packet,
        Client.block_until_packet_id fuel packet_id (chunks.flatten ++ (c ++ rest)) =
          .ok (packet, rest) ∧
        packet.get_protocol_id = some packet_id ∧ packet.buffer = c := by
  intro packet_id chunks
  induction chunks with
  | nil =>
    intro _ c rest hframe fuel hfuel
    obtain ⟨f, rfl⟩ : ∃ f, fuel = f + 1 := ⟨fuel - 1, by omega⟩
    obtain ⟨packet, hrp, hpid, hbuf⟩ := read_packet_frame_chunk c packet_id hframe rest
    refine ⟨packet, ?_, hpid, hbuf⟩
    show Client.block_until_packet_id (f + 1) packet_id ([].flatten ++ (c ++ rest)) = _
    simp only [List.flatten_nil, List.nil_append, Client.block_until_packet_id]
    rw [hrp]
    simp [hpid]
  | cons ch chunks ih =>
    intro hall c rest hframe fuel hfuel
    obtain ⟨f, rfl⟩ : ∃ f, fuel = f + 1 := ⟨fuel - 1, by omega⟩
    have htail := fun x hx => hall x (List.mem_cons_of_mem _ hx)
    obtain ⟨packet, hblk, hpid, hbuf⟩ := ih htail c rest hframe f
      (by simp only [List.length_cons] at hfuel; omega)
    refine ⟨packet, ?_, hpid, hbuf⟩
    show Client.block_until_packet_id (f + 1) packet_id
      ((ch :: chunks).flatten ++ (c ++ rest)) = _
    rw [List.flatten_cons, List.append_assoc]
    simp only [Client.block_until_packet_id]
    rcases hall ch (List.mem_cons_self _ _) with hskip | ⟨id, hfr, hne⟩
    · rw [read_packet_skip_chunk ch hskip (chunks.flatten ++ (c ++ rest))]
      exact hblk
    · obtain ⟨fpacket, hrp, hfpid, _⟩ :=
        read_packet_frame_chunk ch id hfr (chunks.flatten ++ (c ++ rest))
      rw [hrp]
      simp only [hfpid]
      rw [if_neg hne]
      exact hblk

/-- Witness for C5: fed frames with ids 1, 5, 2, a call with id 2 returns
the third frame and ignores the first two. -/
theorem block_until_packet_id_spec_witness :
    ∃ packet : Packet,
      Client.block_until_packet_id 3 2 ([[1, 1], [1, 5]].flatten ++ ([1, 2] ++ [9])) =
        .ok (packet, [9]) ∧
      packet.get_protocol_id = some 2 ∧ packet.buffer = [1, 2] := by
  apply block_until_packet_id_spec 2 [[1, 1], [1, 5]]
  · intro ch hch
    simp only [List.mem_cons, List.not_mem_nil, or_false] at hch
    rcases hch with rfl | rfl
    · exact Or.inr ⟨1, ⟨[1], [1], 1, rfl, by decide, by norm_num, by decide, by decide, rfl,
        by norm_num, by norm_num, rfl, rfl⟩, by norm_num⟩
    · exact Or.inr ⟨5, ⟨[1], [5], 1, rfl, by decide, by norm_num, by decide, by decide, rfl,
        by norm_num, by norm_num, rfl, rfl⟩, by norm_num⟩
  · exact ⟨[1], [2], 1, rfl, by decide, by norm_num, by decide, by decide, rfl,
      by norm_num, by norm_num, rfl, rfl⟩
  · norm_num
